import Mathlib

/-!
# DocType Explorer page: a shallow embedding and its verified properties

The source is `doctype_explorer/doctype_explorer/page/doctype_explorer/doctype_explorer.js`,
the Frappe desk page with a DocType name control, a level control, three buttons and an
output panel.  The embedding has three layers:

* the JavaScript values and operators the page uses (`||`, `&&`, `!`, property reads,
  string concatenation, `JSON.stringify(v, null, 2)`, `String.prototype.replace` with
  the global pattern `\s+`);
* the page itself: its state (the two controls and the output panel), the actions it
  performs on its environment (`frappe.msgprint`, `frappe.call`, `frappe.show_alert`,
  `window.open`, writes of the output panel) recorded in a log, the two click handlers
  and the two callbacks;
* the traversal engine behind `generate_doctype_documentation`, which is not part of
  the page source and is modelled from the specification.

Conventions of the embedding.  JavaScript strings are Lean strings: every character the
pattern `\s` matches is a single UTF-16 code unit outside the surrogate range, so
replacing over code points and over code units gives the same result.  JavaScript
numbers are restricted to the integers (the values an `Int` control and a JSON payload
of integers can hold); fractional numbers, `NaN` and the infinities are not represented.
The translation function `__` of the framework is a parameter `tr` of every handler.
-/

namespace DoctypeExplorer

/-! ## JavaScript values -/

/-- The JavaScript values the page handles: control values and JSON-decoded responses. -/
inductive JSValue where
  | undefined
  | null
  | bool (b : Bool)
  | num (n : Int)
  | str (s : String)
  | arr (items : List JSValue)
  | obj (props : List (String × JSValue))

/-- ToBoolean: `undefined`, `null`, `false`, `0` and `''` are falsy, all else is truthy. -/
def truthy : JSValue → Bool
  | .undefined => false
  | .null => false
  | .bool b => b
  | .num n => n != 0
  | .str s => s != ""
  | .arr _ => true
  | .obj _ => true

/-- The operator `a || b`. -/
def jsOr (a b : JSValue) : JSValue := if truthy a then a else b

/-- Own-property lookup in the property list of an object, whose keys are distinct
(on a list with a repeated key the first entry wins). -/
def lookupProp (key : String) : List (String × JSValue) → JSValue
  | [] => .undefined
  | (k, v) :: rest => if k = key then v else lookupProp key rest

/-- The property read `v.key` for a key that is no built-in member of the primitive
wrappers or of arrays (the page reads `message`, `success` and `data` only).
Reading a property of `undefined` or `null` throws a TypeError: `none`. -/
def getProp (v : JSValue) (key : String) : Option JSValue :=
  match v with
  | .undefined => none
  | .null => none
  | .obj props => some (lookupProp key props)
  | _ => some .undefined

mutual
/-- ToString, as used by string concatenation with `+`. -/
def jsToString : JSValue → String
  | .undefined => "undefined"
  | .null => "null"
  | .bool b => if b then "true" else "false"
  | .num n => toString n
  | .str s => s
  | .arr items => joinItems items
  | .obj _ => "[object Object]"
/-- The body of `Array.prototype.join` with the separator `,`. -/
def joinItems : List JSValue → String
  | [] => ""
  | [v] => itemToString v
  | v :: w :: vs => itemToString v ++ "," ++ joinItems (w :: vs)
/-- The text of one array element inside `join`: `undefined` and `null` give `''`. -/
def itemToString : JSValue → String
  | .undefined => ""
  | .null => ""
  | .bool b => if b then "true" else "false"
  | .num n => toString n
  | .str s => s
  | .arr items => joinItems items
  | .obj _ => "[object Object]"
end

/-! ## `JSON.stringify(value, null, 2)` -/

/-- One lowercase hexadecimal digit. -/
def hexDigit (n : Nat) : Char :=
  if n < 10 then Char.ofNat (48 + n) else Char.ofNat (87 + n)

/-- The character U+005C, the backslash. -/
def backslash : Char := Char.ofNat 92

/-- The character U+0022, the double quote. -/
def doubleQuote : Char := Char.ofNat 34

/-- The escape of one character inside a JSON string literal (QuoteJSONString). -/
def quoteChar (c : Char) : List Char :=
  if c.toNat = 34 then [backslash, doubleQuote]
  else if c.toNat = 92 then [backslash, backslash]
  else if c.toNat = 8 then [backslash, 'b']
  else if c.toNat = 9 then [backslash, 't']
  else if c.toNat = 10 then [backslash, 'n']
  else if c.toNat = 12 then [backslash, 'f']
  else if c.toNat = 13 then [backslash, 'r']
  else if c.toNat < 32 then
    [backslash, 'u', '0', '0', hexDigit (c.toNat / 16), hexDigit (c.toNat % 16)]
  else [c]

/-- QuoteJSONString: the text between double quotes, with the JSON escapes. -/
def quoteJSONString (s : String) : String :=
  String.mk (doubleQuote :: (s.data.flatMap quoteChar ++ [doubleQuote]))

/-- The gap of `JSON.stringify(_, null, 2)`: two spaces. -/
def gap : String := "  "

/-- Wraps the serialised members of an array or object: nothing between the brackets
when there is no member, otherwise one member per line at the deeper indentation. -/
def wrapMembers (opening closing stepback : String) (members : List String) : String :=
  match members with
  | [] => opening ++ closing
  | _ => opening ++ "\n" ++ (stepback ++ gap)
      ++ (",\n" ++ (stepback ++ gap)).intercalate members ++ "\n" ++ stepback ++ closing

mutual
/-- SerializeJSONProperty at the current indentation; `none` is `undefined`. -/
def serializeJSONProperty (indent : String) : JSValue → Option String
  | .undefined => none
  | .null => some "null"
  | .bool b => some (if b then "true" else "false")
  | .num n => some (toString n)
  | .str s => some (quoteJSONString s)
  | .arr items => some (wrapMembers "[" "]" indent (serializeItems (indent ++ gap) items))
  | .obj props => some (wrapMembers "\x7b" "\x7d" indent (serializeMembers (indent ++ gap) props))
/-- The elements of an array; an element that serialises to `undefined` becomes `null`. -/
def serializeItems (indent : String) : List JSValue → List String
  | [] => []
  | v :: vs => (serializeJSONProperty indent v).getD "null" :: serializeItems indent vs
/-- The members of an object, in enumeration order; a property whose value serialises
to `undefined` is left out. -/
def serializeMembers (indent : String) : List (String × JSValue) → List String
  | [] => []
  | (k, v) :: rest =>
    match serializeJSONProperty indent v with
    | some s => (quoteJSONString k ++ ": " ++ s) :: serializeMembers indent rest
    | none => serializeMembers indent rest
end

/-- The call `JSON.stringify(v, null, 2)`: a string, or `undefined` for `undefined`. -/
def jsonStringify (v : JSValue) : JSValue :=
  match serializeJSONProperty "" v with
  | some s => .str s
  | none => .undefined

/-! ## `name.replace(/\s+/g, '_')` -/

/-- The characters matched by `\s`: WhiteSpace and LineTerminator of ECMAScript. -/
def isWhiteSpace (c : Char) : Bool :=
  c.toNat = 0x09 || c.toNat = 0x0A || c.toNat = 0x0B || c.toNat = 0x0C || c.toNat = 0x0D
    || c.toNat = 0x20 || c.toNat = 0xA0 || c.toNat = 0x1680
    || (0x2000 ≤ c.toNat && c.toNat ≤ 0x200A)
    || c.toNat = 0x2028 || c.toNat = 0x2029 || c.toNat = 0x202F || c.toNat = 0x205F
    || c.toNat = 0x3000 || c.toNat = 0xFEFF

mutual
/-- Global replacement of the pattern `\s+` by `_`, scanning left to right for the next
match: a character that is not whitespace is copied; at a whitespace character a match
starts, one underscore is emitted for it and the greedy `+` extends the match. -/
def replaceWhiteSpace : List Char → List Char
  | [] => []
  | c :: cs =>
    if isWhiteSpace c then '_' :: extendMatch cs else c :: replaceWhiteSpace cs
/-- Inside a match of `\s+`: the greedy `+` consumes every further whitespace character;
the match ends at the first character that is not whitespace, which is copied, and the
scan for the next match resumes behind it. -/
def extendMatch : List Char → List Char
  | [] => []
  | c :: cs =>
    if isWhiteSpace c then extendMatch cs else c :: replaceWhiteSpace cs
end

/-- The method call `name.replace(/\s+/g, '_')` on a string. -/
def stringReplace (name : String) : String := String.mk (replaceWhiteSpace name.data)

/-- The expression `'/files/doctype_docs/' + name.replace(/\s+/g, '_') + '.html'` for a
string `name`. -/
def exportUrl (name : String) : String :=
  "/files/doctype_docs/" ++ stringReplace name ++ ".html"

/-! ## The page: state, actions, handlers -/

/-- The callback handed to `frappe.call`, with the variable its closure captures. -/
inductive Callback where
  | generateJson
  | exportHtml (name : JSValue)

/-- The actions the page performs on its environment. -/
inductive Effect where
  /-- The call `frappe.msgprint` with title, indicator and message. -/
  | msgprint (title indicator : String) (message : JSValue)
  /-- The call `frappe.call` with method, args, freeze and callback. -/
  | call (method : String) (args : JSValue) (freeze : Bool) (callback : Callback)
  /-- A write of the text of the output panel `#json-output`. -/
  | setText (text : String)
  /-- The call `frappe.show_alert` with message and indicator. -/
  | showAlert (message indicator : String)
  /-- The call `window.open` with URL and target. -/
  | windowOpen (url target : String)
  /-- An uncaught TypeError, which ends the running handler. -/
  | typeError

/-- The state of the page: the values `get_value()` of the two controls
`doctype_name_control` and `level_control`, the text of the output panel `$output` and
the log of the actions performed so far, oldest first. -/
structure Page where
  doctype_name_control : JSValue
  level_control : JSValue
  output : String
  log : List Effect

/-- Appends one action to the log. -/
def Page.emit (p : Page) (e : Effect) : Page :=
  { p with log := p.log ++ [e] }

/-- The jQuery call `$output.text(v)`: jQuery sets a value only when it is not
`undefined`, so with `undefined` nothing is written; otherwise the text content becomes
the string of `v` (empty for `null`). -/
def Page.text (p : Page) (v : JSValue) : Page :=
  match v with
  | .undefined => p
  | .null => { p with output := "", log := p.log ++ [.setText ""] }
  | w => { p with output := jsToString w, log := p.log ++ [.setText (jsToString w)] }

/-- The function `getName`: `doctype_name_control.get_value() || ''`. -/
def getName (p : Page) : JSValue := jsOr p.doctype_name_control (.str "")

/-- The function `getLevel`: `level_control.get_value() || 0`. -/
def getLevel (p : Page) : JSValue := jsOr p.level_control (.num 0)

/-- The function `notifyError(msg)`: a red message box titled `__('Error')`. -/
def notifyError (tr : String → String) (msg : JSValue) (p : Page) : Page :=
  p.emit (.msgprint (tr "Error") "red" msg)

/-- The expression `r && r.message`. -/
def andMessage (r : JSValue) : Option JSValue :=
  if truthy r then getProp r "message" else some r

/-- The expression `r && r.message && r.message.success`. -/
def successChain (r : JSValue) : Option JSValue := do
  let a ← andMessage r
  if truthy a then (getProp r "message").bind (getProp · "success") else some a

/-- The expression `r && r.message && r.message.message`. -/
def messageChain (r : JSValue) : Option JSValue := do
  let a ← andMessage r
  if truthy a then (getProp r "message").bind (getProp · "message") else some a

/-- The click handler of `#btn-generate-json`. -/
def onGenerateJsonClick (tr : String → String) (p : Page) : Page :=
  let name := getName p
  let level := getLevel p
  if !truthy name then notifyError tr (.str (tr "Please enter a DocType name.")) p
  else
    p.emit (.call "doctype_explorer.explorer.generate_doctype_documentation"
      (.obj [("doctype_name", name), ("return_json", .bool true), ("level", level)])
      true .generateJson)

/-- The callback of the `generate_doctype_documentation` call, run on the response `r`. -/
def generateJsonCallback (tr : String → String) (r : JSValue) (p : Page) : Page :=
  match successChain r with
  | none => p.emit .typeError
  | some c =>
    if truthy c then
      match (getProp r "message").bind (getProp · "data") with
      | none => p.emit .typeError
      | some data => p.text (jsonStringify data)
    else
      match messageChain r with
      | none => p.emit .typeError
      | some m => notifyError tr (jsOr m (.str (tr "Failed to generate"))) p

/-- The click handler of `#btn-export-html`. -/
def onExportHtmlClick (tr : String → String) (p : Page) : Page :=
  let name := getName p
  if !truthy name then notifyError tr (.str (tr "Please enter a DocType name.")) p
  else
    p.emit (.call "doctype_explorer.explorer.export_to_html"
      (.obj [("doctype_name", name)]) true (.exportHtml name))

/-- The callback of the `export_to_html` call, run on the response `r`; `name` is the
variable of the click handler that the closure captured.  Only a string has the method
`replace`: on any other (truthy) name the call `name.replace` throws a TypeError. -/
def exportHtmlCallback (tr : String → String) (name r : JSValue) (p : Page) : Page :=
  match andMessage r with
  | none => p.emit .typeError
  | some path =>
    if truthy path then
      let shown := p.emit (.showAlert (tr "HTML exported: " ++ jsToString path) "green")
      match name with
      | .str s => shown.emit (.windowOpen (exportUrl s) "_blank")
      | _ => shown.emit .typeError
    else notifyError tr (.str (tr "Failed to export HTML")) p

/-- Runs a callback recorded by `frappe.call` on the response the server sent. -/
def runCallback (tr : String → String) (cb : Callback) (r : JSValue) (p : Page) : Page :=
  match cb with
  | .generateJson => generateJsonCallback tr r p
  | .exportHtml name => exportHtmlCallback tr name r p

/-- The URLs of the windows opened in a log. -/
def openedUrls : List Effect → List String
  | [] => []
  | .windowOpen url _ :: rest => url :: openedUrls rest
  | _ :: rest => openedUrls rest

/-- The messages of the error boxes (`frappe.msgprint`) shown in a log. -/
def notifiedErrors : List Effect → List JSValue
  | [] => []
  | .msgprint _ _ message :: rest => message :: notifiedErrors rest
  | _ :: rest => notifiedErrors rest

/-- The response's payload `r.message`, `undefined` when there is none to read. -/
def payloadOf (r : JSValue) : JSValue := (getProp r "message").getD .undefined

/-- The field `key` of the response's payload, `undefined` when there is none to read. -/
def payloadField (r : JSValue) (key : String) : JSValue :=
  (getProp (payloadOf r) key).getD .undefined

/-! ## The normalisation, stated over maximal runs -/

/-- The decomposition of a text into its maximal runs: consecutive characters are in
the same run exactly when both are whitespace or both are not. -/
def whiteSpaceRuns : List Char → List (List Char)
  | [] => []
  | c :: cs =>
    match whiteSpaceRuns cs with
    | (d :: run) :: rest =>
      if isWhiteSpace c = isWhiteSpace d then (c :: d :: run) :: rest
      else [c] :: (d :: run) :: rest
    | rest => [c] :: rest

/-- A run of one or more whitespace characters. -/
def isWhiteSpaceRun (run : List Char) : Bool :=
  !run.isEmpty && run.all isWhiteSpace

/-- The image of one run: a single underscore for a whitespace run, the run itself
otherwise. -/
def collapseRun (run : List Char) : List Char :=
  if isWhiteSpaceRun run then ['_'] else run

/-- Stated from the specification's words, for comparison with `stringReplace`: the
name in which every maximal run of one or more whitespace characters has been replaced
by a single underscore, all other characters kept, in order. -/
def collapseWhiteSpaceRuns (name : String) : String :=
  String.mk ((whiteSpaceRuns name.data).flatMap collapseRun)

/-- The number of UTF-16 code units of one character. -/
def unitsOf (c : Char) : Nat := if c.toNat < 0x10000 then 1 else 2

/-- The length of a string in UTF-16 code units, the `length` of JavaScript. -/
def utf16Length (s : String) : Nat :=
  (s.data.map unitsOf).sum

/-- A name in which whitespace occurs only as single U+0020 spaces (no other
whitespace character, no two whitespace characters in a row) and that contains no
underscore. -/
def singleSpaced : List Char → Bool
  | [] => true
  | c :: cs =>
    c != '_' && (!isWhiteSpace c || (c == ' ' && !(cs.head?.any isWhiteSpace)))
      && singleSpaced cs

/-- Every run is non-empty and all its characters are of the class of its first. -/
def RunOk (run : List Char) : Prop :=
  ∃ d tl, run = d :: tl ∧ ∀ x ∈ tl, isWhiteSpace x = isWhiteSpace d

/-- The inverse of the replacement on single-spaced names: an underscore is a space. -/
def unspace (c : Char) : Char := if c = '_' then ' ' else c

/-! ## The traversal engine, modelled from the specification -/

/-- Modelled from the spec: the kind of a field (§3, §9), a closed tagged union of the
reference kinds and the plain kinds. -/
inductive FieldKind where
  | reference
  | plain

/-- Modelled from the spec: a FieldDefinition (§3) with its field name, kind, target
DocType name (present only for reference kinds), label, required flag and passthrough
attributes. -/
structure FieldDefinition where
  fieldname : String
  kind : FieldKind
  target : Option String
  label : String
  required : Bool
  passthrough : List (String × String)

/-- Modelled from the spec: the flag of a DocTypeNode (§3, §4.3): a fully expanded node,
a cut node (depth limit reached), a cycle node (the target is on the current path) or an
unresolved node (the referenced DocType is missing from the schema store). -/
inductive NodeFlag where
  | expanded
  | cut
  | cycle
  | unresolved

/-- Modelled from the spec: a DocTypeNode (§3): name, fields, depth, flag, children. -/
inductive DocTypeNode where
  | mk (name : String) (fields : List FieldDefinition) (depth : Nat) (flag : NodeFlag)
      (children : List DocTypeNode)

/-- The name of a node. -/
def DocTypeNode.name : DocTypeNode → String
  | .mk name _ _ _ _ => name

/-- The depth recorded in a node. -/
def DocTypeNode.depth : DocTypeNode → Nat
  | .mk _ _ depth _ _ => depth

/-- The flag of a node. -/
def DocTypeNode.flag : DocTypeNode → NodeFlag
  | .mk _ _ _ flag _ => flag

/-- The children of a node. -/
def DocTypeNode.children : DocTypeNode → List DocTypeNode
  | .mk _ _ _ _ children => children

/-- Modelled from the spec: the schema store behind the Metadata Accessor (§4.1), the
DocTypes with their fields in declared order. -/
abbrev SchemaStore := List (String × List FieldDefinition)

/-- Modelled from the spec: the Metadata Accessor `fetch` (§4.1); `none` is the
NotFoundError, also raised for the empty name. -/
def fetch (store : SchemaStore) (name : String) : Option (List FieldDefinition) :=
  if name = "" then none else store.lookup name

/-- Modelled from the spec: the Reference Resolver `resolve` (§4.2): the target of a
reference-kind field with a declared, non-empty target, otherwise no reference. -/
def resolve (field : FieldDefinition) : Option String :=
  match field.kind, field.target with
  | .reference, some target => if target = "" then none else some target
  | _, _ => none

/-- Keeps the first appearance of every name. -/
def firstAppearances : List String → List String
  | [] => []
  | t :: ts => t :: (firstAppearances ts).filter (fun u => u != t)

/-- Modelled from the spec: the distinct resolved targets of a node's fields, in the
order of first appearance (§4.3). -/
def distinctTargets (fields : List FieldDefinition) : List String :=
  firstAppearances (fields.filterMap resolve)

/-- A leaf that stands for a target without fetching it. -/
def leafNode (name : String) (depth : Nat) (flag : NodeFlag) : DocTypeNode :=
  .mk name [] depth flag []

/-- All results, if every one is present. -/
def allSome {α : Type} : List (Option α) → Option (List α)
  | [] => some []
  | none :: _ => none
  | some a :: rest =>
    match allSome rest with
    | some as => some (a :: as)
    | none => none

/-- Modelled from the spec: the depth-first expansion of the Traversal Engine (§4.3) at
the node `name` with fetched `fields`, at `depth`, below the `ancestors`.  For each
distinct target: a cut leaf when the depth limit is reached, else a cycle leaf when the
target is on the current path, else an unresolved leaf when the target is missing from
the store, else the expansion of the target.  The recursion is on `fuel`; `none` means
the fuel ran out. -/
def exploreNode (store : SchemaStore) (maxLevel : Nat) :
    Nat → List String → Nat → String → List FieldDefinition → Option DocTypeNode
  | 0, _, _, _, _ => none
  | fuel + 1, ancestors, depth, name, fields =>
    (allSome ((distinctTargets fields).map fun target =>
      if maxLevel ≠ 0 ∧ maxLevel ≤ depth + 1 then some (leafNode target (depth + 1) .cut)
      else if target ∈ name :: ancestors then some (leafNode target (depth + 1) .cycle)
      else
        match fetch store target with
        | none => some (leafNode target (depth + 1) .unresolved)
        | some targetFields =>
          exploreNode store maxLevel fuel (name :: ancestors) (depth + 1) target
            targetFields)).map
      fun children => .mk name fields depth .expanded children

/-- The failures of `explore`: the NotFoundError of the spec, and the exhaustion of the
fuel of the model (which never occurs, see `exploreNode_total`). -/
inductive ExploreError where
  | notFound
  | fuelExhausted

/-- Modelled from the spec: `explore(root_name, max_level)` of the Traversal Engine
(§4.3), the function behind `generate_doctype_documentation`, which is not among the
source files.  `max_level = 0` is unbounded; the root is at depth 0.  A path never
repeats a name and holds names of the store only, so one more unit of fuel than the
store has entries always suffices. -/
def explore (store : SchemaStore) (root : String) (maxLevel : Nat) :
    Except ExploreError DocTypeNode :=
  match fetch store root with
  | none => .error .notFound
  | some fields =>
    match exploreNode store maxLevel (store.length + 1) [] 0 root fields with
    | some tree => .ok tree
    | none => .error .fuelExhausted

/-- The nodes at depth exactly `k` below (and counting from) the node `t`. -/
def nodesAt : Nat → DocTypeNode → List DocTypeNode
  | 0, t => [t]
  | k + 1, t => t.children.flatMap (nodesAt k)

/-- The schema store of the scenario of §8: Invoice refers to Customer, Customer to
Address, Address to nothing. -/
def invoiceStore : SchemaStore :=
  [("Invoice", [⟨"customer", .reference, some "Customer", "Customer", true, []⟩,
                ⟨"total", .plain, none, "Total", false, []⟩]),
   ("Customer", [⟨"address", .reference, some "Address", "Address", false, []⟩]),
   ("Address", [⟨"street", .plain, none, "Street", false, []⟩])]

/-! ## Lemmas on the replacement -/

theorem isWhiteSpace_underscore : isWhiteSpace '_' = false := by decide

theorem extendMatch_eq_dropWhile (s : List Char) :
    extendMatch s = replaceWhiteSpace (s.dropWhile isWhiteSpace) := by
  induction s with
  | nil => simp [extendMatch, replaceWhiteSpace]
  | cons c cs ih =>
    by_cases h : isWhiteSpace c = true
    · simp [extendMatch, h, ih]
    · simp [extendMatch, replaceWhiteSpace, h]

theorem replace_extend_no_whiteSpace (s : List Char) :
    (∀ x ∈ replaceWhiteSpace s, isWhiteSpace x = false) ∧
    (∀ x ∈ extendMatch s, isWhiteSpace x = false) := by
  induction s with
  | nil => simp [extendMatch, replaceWhiteSpace]
  | cons c cs ih =>
    by_cases h : isWhiteSpace c = true
    · simp [extendMatch, replaceWhiteSpace, h, isWhiteSpace_underscore]
      exact ih.2
    · simp [extendMatch, replaceWhiteSpace, h]
      exact ih.1

theorem replaceWhiteSpace_of_no_whiteSpace (s : List Char)
    (h : ∀ x ∈ s, isWhiteSpace x = false) : replaceWhiteSpace s = s := by
  induction s with
  | nil => simp [replaceWhiteSpace]
  | cons c cs ih =>
    have hc : isWhiteSpace c = false := h c (List.mem_cons_self _ _)
    simp [replaceWhiteSpace, hc]
    exact ih (fun x hx => h x (List.mem_cons_of_mem _ hx))

theorem replace_extend_length (s : List Char) :
    (replaceWhiteSpace s).length ≤ s.length ∧ (extendMatch s).length ≤ s.length := by
  induction s with
  | nil => simp [extendMatch, replaceWhiteSpace]
  | cons c cs ih =>
    by_cases h : isWhiteSpace c = true
    · simp [extendMatch, replaceWhiteSpace, h]
      exact ⟨ih.2, Nat.le_succ_of_le ih.2⟩
    · simp [extendMatch, replaceWhiteSpace, h]
      exact ih.1


theorem replace_extend_units (s : List Char) :
    ((replaceWhiteSpace s).map unitsOf).sum ≤ (s.map unitsOf).sum ∧
    ((extendMatch s).map unitsOf).sum ≤ (s.map unitsOf).sum := by
  induction s with
  | nil => simp [extendMatch, replaceWhiteSpace]
  | cons c cs ih =>
    have hu : unitsOf '_' = 1 := by decide
    have hc : 1 ≤ unitsOf c := by unfold unitsOf; split <;> omega
    by_cases h : isWhiteSpace c = true
    · simp [extendMatch, replaceWhiteSpace, h, hu]
      omega
    · simp [extendMatch, replaceWhiteSpace, h]
      exact ih.1


/-! ## Lemmas on the maximal runs -/

theorem whiteSpaceRuns_cons (c : Char) (cs : List Char) :
    whiteSpaceRuns (c :: cs) =
      match whiteSpaceRuns cs with
      | (d :: run) :: rest =>
        if isWhiteSpace c = isWhiteSpace d then (c :: d :: run) :: rest
        else [c] :: (d :: run) :: rest
      | rest => [c] :: rest := by
  rw [whiteSpaceRuns]

theorem whiteSpaceRuns_ok (s : List Char) : ∀ run ∈ whiteSpaceRuns s, RunOk run := by
  induction s with
  | nil => simp [whiteSpaceRuns]
  | cons c cs ih =>
    rw [whiteSpaceRuns_cons]
    split
    · rename_i d run rest heq
      rw [heq] at ih
      have hd : RunOk (d :: run) := ih _ (List.mem_cons_self _ _)
      obtain ⟨d', tl, hrun, htl⟩ := hd
      injection hrun with h1 h2
      subst h1 h2
      split
      · rename_i hcd
        intro r hr
        rcases List.mem_cons.1 hr with rfl | hr
        · refine ⟨c, d :: run, rfl, ?_⟩
          intro x hx
          rcases List.mem_cons.1 hx with rfl | hx
          · exact hcd.symm
          · rw [htl x hx, hcd]
        · exact ih r (List.mem_cons_of_mem _ hr)
      · intro r hr
        rcases List.mem_cons.1 hr with rfl | hr
        · exact ⟨c, [], rfl, by simp⟩
        · exact ih r hr
    · intro r hr
      rcases List.mem_cons.1 hr with rfl | hr
      · exact ⟨c, [], rfl, by simp⟩
      · exact ih r hr

theorem whiteSpaceRuns_flatten (s : List Char) : (whiteSpaceRuns s).flatten = s := by
  induction s with
  | nil => simp [whiteSpaceRuns]
  | cons c cs ih =>
    rw [whiteSpaceRuns_cons]
    split
    · rename_i d run rest heq
      rw [heq] at ih
      split
      · simpa using ih
      · simpa using ih
    · simpa using ih

theorem isWhiteSpaceRun_of_ok (d : Char) (tl : List Char)
    (h : ∀ x ∈ tl, isWhiteSpace x = isWhiteSpace d) :
    isWhiteSpaceRun (d :: tl) = isWhiteSpace d := by
  unfold isWhiteSpaceRun
  by_cases hd : isWhiteSpace d = true
  · simp [hd]
    intro x hx
    rw [h x hx, hd]
  · simp [hd]

/-- Adjacent runs are of different classes: every run is maximal. -/
theorem whiteSpaceRuns_maximal (s : List Char) :
    (whiteSpaceRuns s).Chain' (fun a b => isWhiteSpaceRun a ≠ isWhiteSpaceRun b) := by
  induction s with
  | nil => simp [whiteSpaceRuns]
  | cons c cs ih =>
    have hok := whiteSpaceRuns_ok cs
    rw [whiteSpaceRuns_cons]
    split
    · rename_i d run rest heq
      rw [heq] at ih hok
      obtain ⟨d', tl, hrun, htl⟩ := hok _ (List.mem_cons_self _ _)
      injection hrun with h1 h2
      subst h1 h2
      split
      · rename_i hcd
        cases rest with
        | nil => simp
        | cons r rest =>
          rw [List.chain'_cons] at ih ⊢
          refine ⟨?_, ih.2⟩
          have h1 : isWhiteSpaceRun (c :: d :: run) = isWhiteSpace c :=
            isWhiteSpaceRun_of_ok c (d :: run) (by
              intro x hx
              rcases List.mem_cons.1 hx with rfl | hx
              · exact hcd.symm
              · rw [htl x hx, hcd])
          have h2 : isWhiteSpaceRun (d :: run) = isWhiteSpace d := isWhiteSpaceRun_of_ok d run htl
          rw [h1, hcd, ← h2]
          exact ih.1
      · rename_i hcd
        rw [List.chain'_cons]
        refine ⟨?_, ih⟩
        rw [isWhiteSpaceRun_of_ok d run htl, isWhiteSpaceRun_of_ok c [] (by simp)]
        exact hcd
    · rename_i rest hne
      cases hr : whiteSpaceRuns cs with
      | nil => simp
      | cons r rest2 =>
        obtain ⟨d, tl, hrun, _⟩ := hok r (by rw [hr]; exact List.mem_cons_self _ _)
        subst hrun
        exact absurd hr (hne d tl rest2)


theorem collapseRun_of_ok (d : Char) (tl : List Char)
    (h : ∀ x ∈ tl, isWhiteSpace x = isWhiteSpace d) :
    collapseRun (d :: tl) = if isWhiteSpace d then ['_'] else d :: tl := by
  unfold collapseRun
  rw [isWhiteSpaceRun_of_ok d tl h]

/-- The replacement computes the collapse of the maximal runs; inside a match the
leading whitespace run, if any, has already been paid for. -/
theorem replace_extend_eq_runs (s : List Char) :
    replaceWhiteSpace s = (whiteSpaceRuns s).flatMap collapseRun ∧
    extendMatch s =
      match whiteSpaceRuns s with
      | run :: rest =>
        if isWhiteSpaceRun run then rest.flatMap collapseRun
        else (run :: rest).flatMap collapseRun
      | [] => [] := by
  induction s with
  | nil => simp [whiteSpaceRuns, replaceWhiteSpace, extendMatch]
  | cons c cs ih =>
    have hok := whiteSpaceRuns_ok cs
    obtain ⟨iha, ihb⟩ := ih
    rw [whiteSpaceRuns_cons]
    cases hr : whiteSpaceRuns cs with
    | nil =>
      rw [hr] at iha ihb
      simp only [List.flatMap_nil] at iha ihb
      by_cases hc : isWhiteSpace c = true
      · simp [replaceWhiteSpace, extendMatch, hc, iha, ihb, collapseRun, isWhiteSpaceRun]
      · simp [replaceWhiteSpace, extendMatch, hc, iha, ihb, collapseRun, isWhiteSpaceRun]
    | cons r rest =>
      rw [hr] at iha ihb hok
      obtain ⟨d, tl, hrun, htl⟩ := hok r (List.mem_cons_self _ _)
      subst hrun
      have hrd := isWhiteSpaceRun_of_ok d tl htl
      have hcd := collapseRun_of_ok d tl htl
      simp only [List.flatMap_cons] at iha ihb ⊢
      rw [hrd] at ihb
      by_cases hc : isWhiteSpace c = true
      · by_cases hd : isWhiteSpace d = true
        · have hall : ∀ x ∈ d :: tl, isWhiteSpace x = isWhiteSpace c := by
            intro x hx
            rcases List.mem_cons.1 hx with rfl | hx
            · rw [hd, hc]
            · rw [htl x hx, hd, hc]
          have h1 := isWhiteSpaceRun_of_ok c (d :: tl) hall
          have h2 := collapseRun_of_ok c (d :: tl) hall
          simp [replaceWhiteSpace, extendMatch, hc, hd, ihb, h1, h2]
        · have h1 := isWhiteSpaceRun_of_ok c [] (by simp)
          have h2 := collapseRun_of_ok c [] (by simp)
          simp [replaceWhiteSpace, extendMatch, hc, hd, ihb, h1, h2, hcd] at *
      · by_cases hd : isWhiteSpace d = true
        · have h1 := isWhiteSpaceRun_of_ok c [] (by simp)
          have h2 := collapseRun_of_ok c [] (by simp)
          simp [replaceWhiteSpace, extendMatch, hc, hd, iha, h1, h2, hcd] at *
        · have hall : ∀ x ∈ d :: tl, isWhiteSpace x = isWhiteSpace c := by
            intro x hx
            have hc2 : isWhiteSpace c = false := by simpa using hc
            have hd2 : isWhiteSpace d = false := by simpa using hd
            rcases List.mem_cons.1 hx with rfl | hx
            · rw [hd2, hc2]
            · rw [htl x hx, hd2, hc2]
          have h1 := isWhiteSpaceRun_of_ok c (d :: tl) hall
          have h2 := collapseRun_of_ok c (d :: tl) hall
          simp [replaceWhiteSpace, extendMatch, hc, hd, iha, h1, h2, hcd] at *

theorem stringReplace_eq_collapse (name : String) :
    stringReplace name = collapseWhiteSpaceRuns name := by
  unfold stringReplace collapseWhiteSpaceRuns
  rw [(replace_extend_eq_runs name.data).1]


/-! ## Lemmas on single-spaced names -/

theorem extendMatch_of_head_not_whiteSpace (s : List Char)
    (h : s.head?.any isWhiteSpace = false) : extendMatch s = replaceWhiteSpace s := by
  cases s with
  | nil => simp [extendMatch, replaceWhiteSpace]
  | cons d ds =>
    have hd : isWhiteSpace d = false := by simpa using h
    simp [extendMatch, replaceWhiteSpace, hd]

theorem unspace_replace_of_singleSpaced (s : List Char) (h : singleSpaced s = true) :
    (replaceWhiteSpace s).map unspace = s := by
  induction s with
  | nil => simp [replaceWhiteSpace]
  | cons c cs ih =>
    simp only [singleSpaced, Bool.and_eq_true, Bool.or_eq_true, bne_iff_ne, ne_eq,
      Bool.not_eq_true', beq_iff_eq] at h
    obtain ⟨⟨hu, hc⟩, hcs⟩ := h
    have ih2 := ih hcs
    by_cases hw : isWhiteSpace c = true
    · rcases hc with hc | ⟨hsp, hhead⟩
      · rw [hw] at hc
        exact absurd hc (by decide)
      · rw [replaceWhiteSpace]
        simp only [hw, if_true, List.map_cons]
        rw [extendMatch_of_head_not_whiteSpace cs hhead, ih2, hsp]
        rfl
    · have hw2 : isWhiteSpace c = false := by simpa using hw
      rw [replaceWhiteSpace]
      simp only [hw2, Bool.false_eq_true, if_false, List.map_cons]
      rw [ih2]
      simp [unspace, hu]

theorem replaceWhiteSpace_injective_of_singleSpaced (a b : List Char)
    (ha : singleSpaced a = true) (hb : singleSpaced b = true)
    (h : replaceWhiteSpace a = replaceWhiteSpace b) : a = b := by
  rw [← unspace_replace_of_singleSpaced a ha, ← unspace_replace_of_singleSpaced b hb, h]

theorem exportUrl_eq_iff (a b : String) :
    exportUrl a = exportUrl b ↔ stringReplace a = stringReplace b := by
  constructor
  · intro h
    have h2 := congrArg String.data h
    simp only [exportUrl, String.data_append, List.append_assoc] at h2
    have h3 := List.append_cancel_left h2
    have h4 := List.append_cancel_right h3
    exact String.ext h4
  · intro h
    simp [exportUrl, h]

theorem notifiedErrors_append (l1 l2 : List Effect) :
    notifiedErrors (l1 ++ l2) = notifiedErrors l1 ++ notifiedErrors l2 := by
  induction l1 with
  | nil => rfl
  | cons e l1 ih => cases e <;> simp [notifiedErrors, ih]

/-- A call of `$output.text` shows no error box. -/
theorem notifiedErrors_text (p : Page) (v : JSValue) :
    notifiedErrors (p.text v).log = notifiedErrors p.log := by
  cases v <;> simp [Page.text, notifiedErrors_append, notifiedErrors]

theorem openedUrls_append (l1 l2 : List Effect) :
    openedUrls (l1 ++ l2) = openedUrls l1 ++ openedUrls l2 := by
  induction l1 with
  | nil => rfl
  | cons e l1 ih => cases e <;> simp [openedUrls, ih]


/-! ## Lemmas on the guarded property reads -/

theorem getProp_of_truthy (v : JSValue) (key : String) (h : truthy v = true) :
    getProp v key = some ((getProp v key).getD .undefined) := by
  cases v <;> simp_all [truthy, getProp]

theorem andMessage_eq (r : JSValue) :
    andMessage r = some (if truthy r then payloadOf r else r) := by
  unfold andMessage payloadOf
  by_cases h : truthy r = true
  · simp only [h, if_true]
    exact getProp_of_truthy r "message" h
  · simp [h]

theorem successChain_eq (r : JSValue) :
    successChain r = some (if truthy r then
      (if truthy (payloadOf r) then payloadField r "success" else payloadOf r) else r) := by
  unfold successChain
  rw [andMessage_eq]
  by_cases h : truthy r = true
  · by_cases h2 : truthy (payloadOf r) = true
    · simp only [h, h2, if_true, Option.bind_eq_bind, Option.some_bind]
      rw [getProp_of_truthy r "message" h, Option.some_bind]
      exact getProp_of_truthy _ "success" h2
    · simp [h, h2]
  · simp [h]

theorem messageChain_eq (r : JSValue) :
    messageChain r = some (if truthy r then
      (if truthy (payloadOf r) then payloadField r "message" else payloadOf r) else r) := by
  unfold messageChain
  rw [andMessage_eq]
  by_cases h : truthy r = true
  · by_cases h2 : truthy (payloadOf r) = true
    · simp only [h, h2, if_true, Option.bind_eq_bind, Option.some_bind]
      rw [getProp_of_truthy r "message" h, Option.some_bind]
      exact getProp_of_truthy _ "message" h2
    · simp [h, h2]
  · simp [h]

theorem payloadOf_falsy_of_falsy (r : JSValue) (h : truthy r = false) :
    truthy (payloadOf r) = false := by
  cases r <;> simp_all [truthy, payloadOf, getProp]

theorem payloadField_of_falsy (r : JSValue) (key : String) (h : truthy (payloadOf r) = false) :
    payloadField r key = .undefined := by
  unfold payloadField
  cases hp : payloadOf r <;> simp_all [truthy, getProp]

/-- The callback of the generate call on a response whose chain is truthy. -/
theorem generateJsonCallback_success (tr : String → String) (r : JSValue) (p : Page)
    (h1 : truthy r = true) (h2 : truthy (payloadOf r) = true)
    (h3 : truthy (payloadField r "success") = true) :
    generateJsonCallback tr r p = p.text (jsonStringify (payloadField r "data")) := by
  unfold generateJsonCallback
  rw [successChain_eq]
  simp only [h1, h2, h3, if_true]
  rw [getProp_of_truthy r "message" h1, Option.some_bind]
  have h4 := getProp_of_truthy _ "data" h2
  unfold payloadOf at h4
  rw [h4]
  rfl

/-- The callback of the generate call on a response whose chain is falsy. -/
theorem generateJsonCallback_failure (tr : String → String) (r : JSValue) (p : Page)
    (h : truthy r = false ∨ truthy (payloadOf r) = false
      ∨ truthy (payloadField r "success") = false) :
    generateJsonCallback tr r p =
      notifyError tr (jsOr (if truthy r then
        (if truthy (payloadOf r) then payloadField r "message" else payloadOf r) else r)
        (.str (tr "Failed to generate"))) p := by
  unfold generateJsonCallback
  rw [successChain_eq, messageChain_eq]
  by_cases h1 : truthy r = true
  · by_cases h2 : truthy (payloadOf r) = true
    · have h3 : truthy (payloadField r "success") = false := by
        rcases h with h | h | h
        · rw [h1] at h; exact absurd h (by decide)
        · rw [h2] at h; exact absurd h (by decide)
        · exact h
      simp [h1, h2, h3]
    · simp [h1, h2]
  · simp [h1]


theorem exportHtmlCallback_truthy (tr : String → String) (name : String) (r : JSValue)
    (p : Page) (h1 : truthy r = true) (h2 : truthy (payloadOf r) = true) :
    exportHtmlCallback tr (.str name) r p =
      (p.emit (.showAlert (tr "HTML exported: " ++ jsToString (payloadOf r)) "green")).emit
        (.windowOpen (exportUrl name) "_blank") := by
  unfold exportHtmlCallback
  rw [andMessage_eq]
  simp [h1, h2]

theorem exportHtmlCallback_falsy (tr : String → String) (name r : JSValue) (p : Page)
    (h : truthy r = false ∨ truthy (payloadOf r) = false) :
    exportHtmlCallback tr name r p = notifyError tr (.str (tr "Failed to export HTML")) p := by
  unfold exportHtmlCallback
  rw [andMessage_eq]
  by_cases h1 : truthy r = true
  · have h2 : truthy (payloadOf r) = false := by
      rcases h with h | h
      · rw [h1] at h; exact absurd h (by decide)
      · exact h
    simp [h1, h2]
  · simp [h1]

theorem getName_of_str (p : Page) (name : String) (hname : p.doctype_name_control = .str name)
    (hne : name ≠ "") : getName p = .str name ∧ truthy (getName p) = true := by
  simp [getName, jsOr, hname, truthy, hne]

theorem onExportHtmlClick_of_str (tr : String → String) (p : Page) (name : String)
    (hname : p.doctype_name_control = .str name) (hne : name ≠ "") :
    onExportHtmlClick tr p = p.emit (.call "doctype_explorer.explorer.export_to_html"
      (.obj [("doctype_name", .str name)]) true (.exportHtml (.str name))) := by
  have h := getName_of_str p name hname hne
  simp [onExportHtmlClick, h.1, truthy, hne]

theorem onGenerateJsonClick_of_str (tr : String → String) (p : Page) (name : String)
    (hname : p.doctype_name_control = .str name) (hne : name ≠ "") :
    onGenerateJsonClick tr p =
      p.emit (.call "doctype_explorer.explorer.generate_doctype_documentation"
        (.obj [("doctype_name", .str name), ("return_json", .bool true),
          ("level", getLevel p)]) true .generateJson) := by
  have h := getName_of_str p name hname hne
  simp [onGenerateJsonClick, h.1, truthy, hne]

theorem getName_of_absent (p : Page)
    (h : p.doctype_name_control = .undefined ∨ p.doctype_name_control = .null ∨ p.doctype_name_control = .str "") :
    truthy (getName p) = false := by
  rcases h with h | h | h <;> simp [getName, jsOr, h, truthy]

theorem truthy_of_payloadField (r : JSValue) (key : String)
    (h : payloadField r key ≠ .undefined) :
    truthy r = true ∧ truthy (payloadOf r) = true := by
  have h2 : truthy (payloadOf r) = true := by
    by_contra hc
    exact h (payloadField_of_falsy r key (by simpa using hc))
  refine ⟨?_, h2⟩
  by_contra hc
  have := payloadOf_falsy_of_falsy r (by simpa using hc)
  rw [h2] at this
  exact absurd this (by decide)

theorem serializeJSONProperty_isSome (indent : String) (v : JSValue)
    (h : v ≠ .undefined) : ∃ text, serializeJSONProperty indent v = some text := by
  cases v with
  | undefined => exact absurd rfl h
  | null => exact ⟨_, by rw [serializeJSONProperty]⟩
  | bool b => exact ⟨_, by rw [serializeJSONProperty]⟩
  | num n => exact ⟨_, by rw [serializeJSONProperty]⟩
  | str s => exact ⟨_, by rw [serializeJSONProperty]⟩
  | arr items => exact ⟨_, by rw [serializeJSONProperty]⟩
  | obj props => exact ⟨_, by rw [serializeJSONProperty]⟩

theorem jsonStringify_of_defined (v : JSValue) (h : v ≠ .undefined) :
    ∃ text, jsonStringify v = .str text := by
  obtain ⟨text, ht⟩ := serializeJSONProperty_isSome "" v h
  exact ⟨text, by simp [jsonStringify, ht]⟩

/-! ## Lemmas on the traversal -/

theorem allSome_mem {α : Type} (l : List (Option α)) (cs : List α)
    (h : allSome l = some cs) : ∀ c ∈ cs, some c ∈ l := by
  induction l generalizing cs with
  | nil =>
    simp only [allSome, Option.some.injEq] at h
    subst h
    simp
  | cons o rest ih =>
    cases o with
    | none => simp [allSome] at h
    | some a =>
      cases hr : allSome rest with
      | none => simp [allSome, hr] at h
      | some as =>
        simp only [allSome, hr, Option.some.injEq] at h
        subst h
        intro c hc
        rcases List.mem_cons.1 hc with rfl | hc
        · exact List.mem_cons_self _ _
        · exact List.mem_cons_of_mem _ (ih as hr c hc)

theorem allSome_isSome {α : Type} (l : List (Option α))
    (h : ∀ o ∈ l, ∃ c, o = some c) : ∃ cs, allSome l = some cs := by
  induction l with
  | nil => exact ⟨[], rfl⟩
  | cons o rest ih =>
    obtain ⟨a, rfl⟩ := h o (List.mem_cons_self _ _)
    obtain ⟨as, has⟩ := ih (fun o ho => h o (List.mem_cons_of_mem _ ho))
    exact ⟨a :: as, by simp [allSome, has]⟩

theorem fetch_mem_keys (store : SchemaStore) (name : String) (fields : List FieldDefinition)
    (h : fetch store name = some fields) : name ∈ store.map Prod.fst := by
  unfold fetch at h
  split at h
  · exact absurd h (by simp)
  · clear * - h
    induction store with
    | nil => simp [List.lookup] at h
    | cons e rest ih =>
      obtain ⟨k, v⟩ := e
      simp only [List.lookup] at h
      split at h
      · rename_i heq
        have : name = k := by simpa using heq
        simp [this]
      · simp [ih h]

/-- A path of distinct names of the store is no longer than the store. -/
theorem path_length_le (store : SchemaStore) (path : List String) (hnd : path.Nodup)
    (hsub : ∀ x ∈ path, x ∈ store.map Prod.fst) : path.length ≤ store.length := by
  have h := (List.subperm_of_subset hnd (fun x hx => hsub x hx)).length_le
  simpa using h

/-- The fuel suffices: below a path of distinct names of the store, with as much fuel
left as the store has entries not yet on the path (and one more), the expansion returns
a tree. -/
theorem exploreNode_total (store : SchemaStore) (maxLevel : Nat) (fuel : Nat) :
    ∀ (ancestors : List String) (depth : Nat) (name : String) (fields : List FieldDefinition),
      (name :: ancestors).Nodup → (∀ x ∈ name :: ancestors, x ∈ store.map Prod.fst) →
      store.length + 1 ≤ fuel + ancestors.length →
      ∃ tree, exploreNode store maxLevel fuel ancestors depth name fields = some tree := by
  induction fuel with
  | zero =>
    intro ancestors depth name fields hnd hsub hfuel
    have := path_length_le store (name :: ancestors) hnd hsub
    simp only [List.length_cons] at this
    omega
  | succ fuel ih =>
    intro ancestors depth name fields hnd hsub hfuel
    rw [exploreNode]
    have hall : ∃ cs, allSome ((distinctTargets fields).map fun target =>
        if maxLevel ≠ 0 ∧ maxLevel ≤ depth + 1 then some (leafNode target (depth + 1) .cut)
        else if target ∈ name :: ancestors then some (leafNode target (depth + 1) .cycle)
        else
          match fetch store target with
          | none => some (leafNode target (depth + 1) .unresolved)
          | some targetFields =>
            exploreNode store maxLevel fuel (name :: ancestors) (depth + 1) target
              targetFields) = some cs := by
      apply allSome_isSome
      intro o ho
      obtain ⟨target, _, rfl⟩ := List.mem_map.1 ho
      split
      · exact ⟨_, rfl⟩
      · split
        · exact ⟨_, rfl⟩
        · rename_i hnot
          split
          · exact ⟨_, rfl⟩
          · rename_i targetFields hfetch
            apply ih
            · exact List.nodup_cons.2 ⟨hnot, hnd⟩
            · intro x hx
              rcases List.mem_cons.1 hx with rfl | hx
              · exact fetch_mem_keys store _ _ hfetch
              · exact hsub x hx
            · simp only [List.length_cons]
              omega
    obtain ⟨cs, hcs⟩ := hall
    exact ⟨_, by rw [hcs]; rfl⟩

theorem nodesAt_leafNode (k : Nat) (name : String) (depth : Nat) (flag : NodeFlag) :
    nodesAt (k + 1) (leafNode name depth flag) = [] := by
  simp [nodesAt, leafNode, DocTypeNode.children]

/-- Below a node expanded at `depth`, the nodes `k` levels down, where `depth + k` is
the positive depth limit, are cut leaves. -/
theorem exploreNode_cut_at_limit (store : SchemaStore) (maxLevel : Nat) (fuel : Nat) :
    ∀ (k : Nat) (ancestors : List String) (depth : Nat) (name : String)
      (fields : List FieldDefinition) (tree : DocTypeNode),
      1 ≤ k → depth + k = maxLevel →
      exploreNode store maxLevel fuel ancestors depth name fields = some tree →
      ∀ n ∈ nodesAt k tree, n.children = [] ∧ n.flag = .cut ∧ n.depth = maxLevel := by
  induction fuel with
  | zero =>
    intro k ancestors depth name fields tree _ _ h
    simp [exploreNode] at h
  | succ fuel ih =>
    intro k ancestors depth name fields tree hk hlevel h
    rw [exploreNode] at h
    obtain ⟨children, hchildren, htree⟩ := Option.map_eq_some'.1 h
    subst htree
    obtain ⟨j, rfl⟩ : ∃ j, k = j + 1 := ⟨k - 1, by omega⟩
    intro n hn
    simp only [nodesAt, DocTypeNode.children, List.mem_flatMap] at hn
    obtain ⟨child, hchild, hn⟩ := hn
    have hsrc := allSome_mem _ _ hchildren child hchild
    obtain ⟨target, _, htarget⟩ := List.mem_map.1 hsrc
    split at htarget
    · rename_i hcut
      injection htarget with htarget
      subst htarget
      have hj : j = 0 := by omega
      subst hj
      simp only [nodesAt, List.mem_singleton] at hn
      subst hn
      exact ⟨rfl, rfl, by simp [leafNode, DocTypeNode.depth]; omega⟩
    · rename_i hcut
      have hj : 1 ≤ j := by
        by_contra hc
        apply hcut
        constructor <;> omega
      obtain ⟨i, rfl⟩ : ∃ i, j = i + 1 := ⟨j - 1, by omega⟩
      split at htarget
      · injection htarget with htarget
        subst htarget
        rw [nodesAt_leafNode] at hn
        exact absurd hn (List.not_mem_nil _)
      · split at htarget
        · injection htarget with htarget
          subst htarget
          rw [nodesAt_leafNode] at hn
          exact absurd hn (List.not_mem_nil _)
        · exact ih (i + 1) _ _ _ _ child (by omega) (by omega) htarget n hn

/-! ## The claims -/

/-- C1: for every DocType name entered, the Export HTML click issues the export call,
and when that call comes back with a truthy path the one URL the callback opens is
`/files/doctype_docs/` followed by the name in which every maximal run of one or more
whitespace characters is replaced by a single underscore, followed by `.html`. -/
theorem export_opens_collapsed_name_url (tr : String → String) (p : Page) (name : String)
    (r path : JSValue) (hname : p.doctype_name_control = .str name) (hne : name ≠ "")
    (hpath : andMessage r = some path) (htruthy : truthy path = true) :
    (onExportHtmlClick tr p).log
        = p.log ++ [.call "doctype_explorer.explorer.export_to_html"
            (.obj [("doctype_name", .str name)]) true (.exportHtml (.str name))] ∧
      openedUrls (runCallback tr (.exportHtml (.str name)) r (onExportHtmlClick tr p)).log
        = openedUrls p.log
          ++ ["/files/doctype_docs/" ++ collapseWhiteSpaceRuns name ++ ".html"] := by
  have hclick := onExportHtmlClick_of_str tr p name hname hne
  refine ⟨?_, ?_⟩
  · rw [hclick]
    rfl
  · rw [andMessage_eq] at hpath
    have hr : truthy r = true := by
      by_contra hr
      simp only [hr] at hpath
      injection hpath with hpath
      rw [← hpath] at htruthy
      exact hr htruthy
    simp only [hr, if_true] at hpath
    injection hpath with hpath
    rw [← hpath] at htruthy
    simp only [runCallback]
    rw [exportHtmlCallback_truthy tr name r _ hr htruthy, hclick]
    simp [Page.emit, openedUrls_append, openedUrls, exportUrl, stringReplace_eq_collapse]

/-- Witness of C1: the name `Sales  Invoice` (two spaces) and a response carrying a path;
the URL opened is `/files/doctype_docs/Sales_Invoice.html`. -/
theorem export_opens_collapsed_name_url_witness :
    ((onExportHtmlClick id ⟨.str "Sales  Invoice", .num 2, "", []⟩).log
        = [] ++ [.call "doctype_explorer.explorer.export_to_html"
            (.obj [("doctype_name", .str "Sales  Invoice")]) true
            (.exportHtml (.str "Sales  Invoice"))] ∧
      openedUrls (runCallback id (.exportHtml (.str "Sales  Invoice"))
          (.obj [("message", .str "/files/doctype_docs/x.html")])
          (onExportHtmlClick id ⟨.str "Sales  Invoice", .num 2, "", []⟩)).log
        = openedUrls []
          ++ ["/files/doctype_docs/" ++ collapseWhiteSpaceRuns "Sales  Invoice" ++ ".html"]) ∧
      "/files/doctype_docs/" ++ collapseWhiteSpaceRuns "Sales  Invoice" ++ ".html"
        = "/files/doctype_docs/Sales_Invoice.html" :=
  ⟨export_opens_collapsed_name_url id ⟨.str "Sales  Invoice", .num 2, "", []⟩
    "Sales  Invoice" (.obj [("message", .str "/files/doctype_docs/x.html")])
    (.str "/files/doctype_docs/x.html") rfl (by decide) rfl (by decide), by decide⟩

/-- C10: the normalisation `name.replace(/\s+/g, '_')` leaves no whitespace character
in its result, is idempotent, returns a name without whitespace unchanged, and its
result is never longer than the name, counted in characters or in UTF-16 code units. -/
theorem stringReplace_normalises (name : String) :
    (∀ c ∈ (stringReplace name).data, isWhiteSpace c = false) ∧
    stringReplace (stringReplace name) = stringReplace name ∧
    ((∀ c ∈ name.data, isWhiteSpace c = false) → stringReplace name = name) ∧
    (stringReplace name).length ≤ name.length ∧
    utf16Length (stringReplace name) ≤ utf16Length name := by
  have hno := (replace_extend_no_whiteSpace name.data).1
  refine ⟨hno, ?_, ?_, ?_, ?_⟩
  · unfold stringReplace
    rw [replaceWhiteSpace_of_no_whiteSpace _ hno]
  · intro h
    unfold stringReplace
    rw [replaceWhiteSpace_of_no_whiteSpace _ h]
  · exact (replace_extend_length name.data).1
  · exact (replace_extend_units name.data).1

/-- Witness of C10: the name `DocType_1` has no whitespace and is returned unchanged. -/
theorem stringReplace_normalises_witness :
    ("DocType_1" : String).data.all (fun c => !isWhiteSpace c) = true ∧
    stringReplace "DocType_1" = "DocType_1" :=
  ⟨by decide, (stringReplace_normalises "DocType_1").2.2.1 (by decide)⟩

/-- C2 as stated fails: the different names `A B` and `A_B` get the same artifact path,
and so do `A B` and `A  B`; the derivation of the path from the name is not injective. -/
theorem exportUrl_not_injective :
    ¬ (∀ a b : String, a ≠ b → exportUrl a ≠ exportUrl b) ∧
    ("A B" ≠ "A_B" ∧ exportUrl "A B" = exportUrl "A_B") ∧
    ("A B" ≠ "A  B" ∧ exportUrl "A B" = exportUrl "A  B") := by
  refine ⟨?_, ⟨by decide, by decide⟩, ⟨by decide, by decide⟩⟩
  intro h
  exact h "A B" "A_B" (by decide) (by decide)

/-- C2 amended: two names get the same artifact path exactly when their normalised
names are equal; in particular two different names that contain no underscore and in
which whitespace occurs only as single U+0020 spaces get different paths. -/
theorem exportUrl_injective_on_singleSpaced (a b : String) :
    (exportUrl a = exportUrl b ↔ stringReplace a = stringReplace b) ∧
    (singleSpaced a.data = true → singleSpaced b.data = true → a ≠ b →
      exportUrl a ≠ exportUrl b) := by
  refine ⟨exportUrl_eq_iff a b, ?_⟩
  intro ha hb hab h
  apply hab
  have h2 := (exportUrl_eq_iff a b).1 h
  unfold stringReplace at h2
  injection h2 with h2
  exact String.ext (replaceWhiteSpace_injective_of_singleSpaced _ _ ha hb h2)

/-- Witness of C2 amended: `Sales Invoice` and `Sales Order` are single-spaced and
different, and their paths differ. -/
theorem exportUrl_injective_on_singleSpaced_witness :
    singleSpaced ("Sales Invoice" : String).data = true ∧
    singleSpaced ("Sales Order" : String).data = true ∧
    exportUrl "Sales Invoice" ≠ exportUrl "Sales Order" :=
  ⟨by decide, by decide,
    (exportUrl_injective_on_singleSpaced "Sales Invoice" "Sales Order").2
      (by decide) (by decide) (by decide)⟩

/-- C3: for every non-empty name and every value of the level control, the Generate
JSON click performs exactly one action, the remote call to
`doctype_explorer.explorer.generate_doctype_documentation` with `doctype_name` the name,
`return_json` true and `level` the value of `getLevel`; that level is 0 whenever the
control's value is absent (`undefined`, `null`), empty or 0, is the control's value
whenever that is a non-zero number (or any other truthy value), and is never `null` or
`undefined`. -/
theorem generate_click_issues_one_call (tr : String → String) (p : Page) (name : String)
    (hname : p.doctype_name_control = .str name) (hne : name ≠ "") :
    (onGenerateJsonClick tr p).log
        = p.log ++ [.call "doctype_explorer.explorer.generate_doctype_documentation"
            (.obj [("doctype_name", .str name), ("return_json", .bool true),
              ("level", getLevel p)]) true .generateJson] ∧
      (onGenerateJsonClick tr p).output = p.output ∧
      ((p.level_control = .undefined ∨ p.level_control = .null ∨ p.level_control = .str ""
          ∨ p.level_control = .num 0) → getLevel p = .num 0) ∧
      (∀ n : Int, n ≠ 0 → p.level_control = .num n → getLevel p = .num n) ∧
      (truthy p.level_control = true → getLevel p = p.level_control) ∧
      getLevel p ≠ .null ∧ getLevel p ≠ .undefined := by
  rw [onGenerateJsonClick_of_str tr p name hname hne]
  refine ⟨rfl, rfl, ?_, ?_, ?_, ?_, ?_⟩
  · intro h
    rcases h with h | h | h | h <;> simp [getLevel, jsOr, h, truthy]
  · intro n hn h
    simp [getLevel, jsOr, h, truthy, hn]
  · intro h
    simp [getLevel, jsOr, h]
  · unfold getLevel jsOr
    cases h : p.level_control <;> simp [truthy] <;> split <;> simp
  · unfold getLevel jsOr
    cases h : p.level_control <;> simp [truthy] <;> split <;> simp

/-- Witness of C3: the name `Customer` with an empty level control sends level 0. -/
theorem generate_click_issues_one_call_witness :
    (onGenerateJsonClick id ⟨.str "Customer", .null, "", []⟩).log
        = [.call "doctype_explorer.explorer.generate_doctype_documentation"
            (.obj [("doctype_name", .str "Customer"), ("return_json", .bool true),
              ("level", .num 0)]) true .generateJson] :=
  (generate_click_issues_one_call id ⟨.str "Customer", .null, "", []⟩ "Customer" rfl
    (by decide)).1

/-- C4: when the name control holds no value (`undefined`, `null` or the empty string),
the Generate JSON click and the Export HTML click each perform exactly one action, the
error message `__('Please enter a DocType name.')`: no remote call, no window, the
output panel unchanged; for every non-empty name each handler issues its remote call. -/
theorem empty_name_is_rejected (tr : String → String) (p : Page) :
    ((p.doctype_name_control = .undefined ∨ p.doctype_name_control = .null ∨ p.doctype_name_control = .str "") →
      (onGenerateJsonClick tr p).log
          = p.log ++ [.msgprint (tr "Error") "red" (.str (tr "Please enter a DocType name."))] ∧
        (onGenerateJsonClick tr p).output = p.output ∧
        (onExportHtmlClick tr p).log
          = p.log ++ [.msgprint (tr "Error") "red" (.str (tr "Please enter a DocType name."))] ∧
        (onExportHtmlClick tr p).output = p.output) ∧
    (∀ name : String, name ≠ "" → p.doctype_name_control = .str name →
      (onGenerateJsonClick tr p).log
          = p.log ++ [.call "doctype_explorer.explorer.generate_doctype_documentation"
              (.obj [("doctype_name", .str name), ("return_json", .bool true),
                ("level", getLevel p)]) true .generateJson] ∧
        (onExportHtmlClick tr p).log
          = p.log ++ [.call "doctype_explorer.explorer.export_to_html"
              (.obj [("doctype_name", .str name)]) true (.exportHtml (.str name))]) := by
  constructor
  · intro h
    have hn := getName_of_absent p h
    simp [onGenerateJsonClick, onExportHtmlClick, hn, notifyError, Page.emit]
  · intro name hne hname
    rw [onGenerateJsonClick_of_str tr p name hname hne,
      onExportHtmlClick_of_str tr p name hname hne]
    exact ⟨rfl, rfl⟩

/-- Witness of C4: an empty name control, and the name `Customer`. -/
theorem empty_name_is_rejected_witness :
    ((onGenerateJsonClick id ⟨.str "", .num 1, "old", []⟩).log
          = [.msgprint "Error" "red" (.str "Please enter a DocType name.")] ∧
        (onExportHtmlClick id ⟨.str "", .num 1, "old", []⟩).log
          = [.msgprint "Error" "red" (.str "Please enter a DocType name.")]) ∧
      (onExportHtmlClick id ⟨.str "Customer", .num 1, "old", []⟩).log
          = [.call "doctype_explorer.explorer.export_to_html"
              (.obj [("doctype_name", .str "Customer")]) true
              (.exportHtml (.str "Customer"))] :=
  ⟨⟨((empty_name_is_rejected id ⟨.str "", .num 1, "old", []⟩).1 (Or.inr (Or.inr rfl))).1,
    ((empty_name_is_rejected id ⟨.str "", .num 1, "old", []⟩).1 (Or.inr (Or.inr rfl))).2.2.1⟩,
    ((empty_name_is_rejected id ⟨.str "Customer", .num 1, "old", []⟩).2 "Customer"
      (by decide) rfl).2⟩

/-- C5: for every response whose success flag is false and whose message is a non-empty
string, the Generate JSON callback shows exactly that message as the error; more
generally, whenever the success flag is falsy and the message is present and non-empty
(truthy), the error shown is the payload's message; when the response, its payload or
its message is absent or empty (falsy) and the call did not succeed, the generic
`__('Failed to generate')` is shown; in every such case the error is the only action and
the output panel's text is unchanged.  On a response whose success chain is truthy no
error box is shown at all, whatever its message.  Hence, for every response, the generic
error is the callback's action only when the response, its payload or its message is
absent or empty (falsy), or the payload's message is itself that very text. -/
theorem generate_failure_shows_message (tr : String → String) (r : JSValue) (p : Page) :
    (∀ msg : String, payloadField r "success" = .bool false →
      payloadField r "message" = .str msg → msg ≠ "" →
      (generateJsonCallback tr r p).log = p.log ++ [.msgprint (tr "Error") "red" (.str msg)] ∧
        (generateJsonCallback tr r p).output = p.output) ∧
    (truthy (payloadField r "success") = false →
      truthy (payloadField r "message") = true →
      (generateJsonCallback tr r p).log
          = p.log ++ [.msgprint (tr "Error") "red" (payloadField r "message")] ∧
        (generateJsonCallback tr r p).output = p.output) ∧
    ((truthy r = false ∨ truthy (payloadOf r) = false ∨
        (truthy (payloadField r "success") = false ∧
          truthy (payloadField r "message") = false)) →
      (generateJsonCallback tr r p).log
          = p.log ++ [.msgprint (tr "Error") "red" (.str (tr "Failed to generate"))] ∧
        (generateJsonCallback tr r p).output = p.output) ∧
    (truthy r = true → truthy (payloadOf r) = true →
      truthy (payloadField r "success") = true →
      notifiedErrors (generateJsonCallback tr r p).log = notifiedErrors p.log) ∧
    (notifiedErrors (generateJsonCallback tr r p).log
        = notifiedErrors p.log ++ [.str (tr "Failed to generate")] →
      truthy r = false ∨ truthy (payloadOf r) = false ∨
        truthy (payloadField r "message") = false ∨
        payloadField r "message" = .str (tr "Failed to generate")) := by
  have hfail : truthy (payloadField r "success") = false →
      truthy (payloadField r "message") = true →
      generateJsonCallback tr r p
        = notifyError tr (payloadField r "message") p := by
    intro h4 h3
    have ht := truthy_of_payloadField r "message" (by
      intro hu
      rw [hu] at h3
      exact absurd h3 (by decide))
    rw [generateJsonCallback_failure tr r p (Or.inr (Or.inr h4))]
    simp [ht.1, ht.2, h3, jsOr]
  refine ⟨?_, ?_, ?_, ?_, ?_⟩
  · intro msg hs hm hne
    have ht := truthy_of_payloadField r "message" (by rw [hm]; simp)
    rw [generateJsonCallback_failure tr r p (Or.inr (Or.inr (by rw [hs]; rfl)))]
    simp only [ht.1, ht.2, if_true, hm]
    simp [jsOr, truthy, hne, notifyError, Page.emit]
  · intro h4 h3
    rw [hfail h4 h3]
    exact ⟨rfl, rfl⟩
  · intro h
    rcases h with h | h | ⟨h4, h3⟩
    · rw [generateJsonCallback_failure tr r p (Or.inl h)]
      simp [h, jsOr, notifyError, Page.emit]
    · rw [generateJsonCallback_failure tr r p (Or.inr (Or.inl h))]
      by_cases h1 : truthy r = true
      · simp [h1, h, jsOr, notifyError, Page.emit]
      · simp [h1, jsOr, notifyError, Page.emit]
    · rw [generateJsonCallback_failure tr r p (Or.inr (Or.inr h4))]
      by_cases h1 : truthy r = true
      · by_cases h2 : truthy (payloadOf r) = true
        · simp [h1, h2, h3, jsOr, notifyError, Page.emit]
        · simp [h1, h2, jsOr, notifyError, Page.emit]
      · simp [h1, jsOr, notifyError, Page.emit]
  · intro h1 h2 h3
    rw [generateJsonCallback_success tr r p h1 h2 h3]
    exact notifiedErrors_text p _
  · intro hshown
    by_cases h1 : truthy r = true
    · by_cases h2 : truthy (payloadOf r) = true
      · by_cases h3 : truthy (payloadField r "message") = true
        · refine Or.inr (Or.inr (Or.inr ?_))
          by_cases h4 : truthy (payloadField r "success") = true
          · rw [generateJsonCallback_success tr r p h1 h2 h4, notifiedErrors_text] at hshown
            have hlen := congrArg List.length hshown
            simp at hlen
          · rw [hfail (by simpa using h4) h3] at hshown
            simp only [notifyError, Page.emit, notifiedErrors_append, notifiedErrors] at hshown
            have h5 := List.append_cancel_left hshown
            exact (List.cons.inj h5).1
        · exact Or.inr (Or.inr (Or.inl (by simpa using h3)))
      · exact Or.inr (Or.inl (by simpa using h2))
    · exact Or.inl (by simpa using h1)

/-- Witness of C5: the response to a request for the missing DocType `Ghost`, a
response without payload, and a successful response that carries a message. -/
theorem generate_failure_shows_message_witness :
    (generateJsonCallback id
        (.obj [("message", .obj [("success", .bool false),
          ("message", .str "DocType not found")])]) ⟨.str "Ghost", .num 0, "old", []⟩).log
        = [] ++ [.msgprint "Error" "red" (.str "DocType not found")] ∧
      (generateJsonCallback id (.obj []) ⟨.str "Ghost", .num 0, "old", []⟩).log
        = [] ++ [.msgprint "Error" "red" (.str "Failed to generate")] ∧
      notifiedErrors (generateJsonCallback id
        (.obj [("message", .obj [("success", .bool true), ("message", .str "ok"),
          ("data", .num 1)])]) ⟨.str "Customer", .num 0, "old", []⟩).log
        = notifiedErrors [] :=
  ⟨((generate_failure_shows_message id
      (.obj [("message", .obj [("success", .bool false),
        ("message", .str "DocType not found")])]) ⟨.str "Ghost", .num 0, "old", []⟩).1
      "DocType not found" rfl rfl (by decide)).1,
    ((generate_failure_shows_message id (.obj []) ⟨.str "Ghost", .num 0, "old", []⟩).2.2.1
      (Or.inr (Or.inl rfl))).1,
    (generate_failure_shows_message id
      (.obj [("message", .obj [("success", .bool true), ("message", .str "ok"),
        ("data", .num 1)])]) ⟨.str "Customer", .num 0, "old", []⟩).2.2.2.1 rfl rfl rfl⟩

/-- C6: the export request does not depend on the level control: for every two values
of the level control the Export HTML click performs the same actions, for a non-empty
name the single remote call to `doctype_explorer.explorer.export_to_html` whose only
argument is `doctype_name`, and the callback then performs the same actions and opens
the same URLs on every response. -/
theorem export_ignores_level (tr : String → String) (p : Page) (l1 l2 r : JSValue) :
    (onExportHtmlClick tr { p with level_control := l1 }).log
        = (onExportHtmlClick tr { p with level_control := l2 }).log ∧
    (∀ cb : Callback,
      (runCallback tr cb r (onExportHtmlClick tr { p with level_control := l1 })).log
        = (runCallback tr cb r (onExportHtmlClick tr { p with level_control := l2 })).log ∧
      openedUrls (runCallback tr cb r (onExportHtmlClick tr { p with level_control := l1 })).log
        = openedUrls
            (runCallback tr cb r (onExportHtmlClick tr { p with level_control := l2 })).log) ∧
    (∀ name : String, name ≠ "" → p.doctype_name_control = .str name →
      (onExportHtmlClick tr { p with level_control := l1 }).log
        = p.log ++ [.call "doctype_explorer.explorer.export_to_html"
            (.obj [("doctype_name", .str name)]) true (.exportHtml (.str name))]) := by
  have hclick : ∀ l : JSValue, (onExportHtmlClick tr { p with level_control := l }).log
      = (onExportHtmlClick tr p).log := by
    intro l
    unfold onExportHtmlClick getName notifyError Page.emit
    simp only []
    split <;> rfl
  have hcb : ∀ (cb : Callback) (q1 q2 : Page), q1.log = q2.log →
      (runCallback tr cb r q1).log = (runCallback tr cb r q2).log := by
    intro cb q1 q2 hq
    cases cb with
    | generateJson =>
      simp only [runCallback, generateJsonCallback]
      split
      · simp [Page.emit, hq]
      · split
        · split
          · simp [Page.emit, hq]
          · unfold Page.text
            split <;> simp [hq]
        · split
          · simp [Page.emit, hq]
          · simp [notifyError, Page.emit, hq]
    | exportHtml name =>
      simp only [runCallback, exportHtmlCallback]
      split
      · simp [Page.emit, hq]
      · split
        · split <;> simp [Page.emit, hq]
        · simp [notifyError, Page.emit, hq]
  refine ⟨by rw [hclick l1, hclick l2], ?_, ?_⟩
  · intro cb
    have h := hcb cb _ _ (show (onExportHtmlClick tr { p with level_control := l1 }).log
      = (onExportHtmlClick tr { p with level_control := l2 }).log by rw [hclick l1, hclick l2])
    exact ⟨h, by rw [h]⟩
  · intro name hne hname
    rw [hclick l1, onExportHtmlClick_of_str tr p name hname hne]
    rfl

/-- Witness of C6: the name `Customer` with the levels 1 and 7. -/
theorem export_ignores_level_witness :
    (onExportHtmlClick id { (⟨.str "Customer", .num 0, "", []⟩ : Page) with
        level_control := .num 1 }).log
      = [] ++ [.call "doctype_explorer.explorer.export_to_html"
          (.obj [("doctype_name", .str "Customer")]) true (.exportHtml (.str "Customer"))] :=
  (export_ignores_level id ⟨.str "Customer", .num 0, "", []⟩ (.num 1) (.num 7)
    (.obj [("message", .str "/files/doctype_docs/Customer.html")])).2.2 "Customer"
    (by decide) rfl

/-- C8 as stated fails: on the response whose payload is `{success: true}` without
`data`, the response, its payload and the success flag are all truthy, yet the callback
performs no action at all: `JSON.stringify(undefined, null, 2)` is `undefined`, the call
`$output.text(undefined)` is the getter, so the panel is not written, and no error is
notified. -/
theorem generate_callback_neither :
    truthy (.obj [("message", .obj [("success", .bool true)])]) = true ∧
    truthy (payloadOf (.obj [("message", .obj [("success", .bool true)])])) = true ∧
    truthy (payloadField (.obj [("message", .obj [("success", .bool true)])]) "success")
      = true ∧
    (generateJsonCallback id (.obj [("message", .obj [("success", .bool true)])])
      ⟨.str "Customer", .num 0, "old", []⟩).log = [] ∧
    (generateJsonCallback id (.obj [("message", .obj [("success", .bool true)])])
      ⟨.str "Customer", .num 0, "old", []⟩).output = "old" :=
  ⟨rfl, rfl, rfl, rfl, rfl⟩

/-- C8 amended: for every response passed to the Generate JSON callback, if the
response, its payload and the payload's success flag are all truthy and the payload
carries `data` (it is not `undefined`), the only action is the write of the output
panel, whose text becomes `JSON.stringify(data, null, 2)`, and no error is notified; if
one of the three is falsy, the only action is one error message and the panel is not
written. -/
theorem generate_callback_dichotomy (tr : String → String) (r : JSValue) (p : Page) :
    (truthy r = true → truthy (payloadOf r) = true →
      truthy (payloadField r "success") = true → payloadField r "data" ≠ .undefined →
      jsonStringify (payloadField r "data") = .str (generateJsonCallback tr r p).output ∧
        (generateJsonCallback tr r p).log
          = p.log ++ [.setText (generateJsonCallback tr r p).output]) ∧
    ((truthy r = false ∨ truthy (payloadOf r) = false
        ∨ truthy (payloadField r "success") = false) →
      (generateJsonCallback tr r p).log
          = p.log ++ [.msgprint (tr "Error") "red"
              (jsOr ((messageChain r).getD .undefined) (.str (tr "Failed to generate")))] ∧
        (generateJsonCallback tr r p).output = p.output) := by
  constructor
  · intro h1 h2 h3 hd
    obtain ⟨text, ht⟩ := jsonStringify_of_defined _ hd
    rw [generateJsonCallback_success tr r p h1 h2 h3, ht]
    exact ⟨rfl, rfl⟩
  · intro h
    rw [generateJsonCallback_failure tr r p h, messageChain_eq]
    exact ⟨rfl, rfl⟩

/-- Witness of C8 amended: a successful response with data, and a `null` response. -/
theorem generate_callback_dichotomy_witness :
    (generateJsonCallback id
        (.obj [("message", .obj [("success", .bool true),
          ("data", .obj [("name", .str "Customer")])])])
        ⟨.str "Customer", .num 0, "old", []⟩).log
      = [] ++ [.setText (generateJsonCallback id
          (.obj [("message", .obj [("success", .bool true),
            ("data", .obj [("name", .str "Customer")])])])
          ⟨.str "Customer", .num 0, "old", []⟩).output] ∧
    (generateJsonCallback id
        (.obj [("message", .obj [("success", .bool true),
          ("data", .obj [("name", .str "Customer")])])])
        ⟨.str "Customer", .num 0, "old", []⟩).output
      = "\x7b\n  \"name\": \"Customer\"\n\x7d" ∧
    (generateJsonCallback id .null ⟨.str "Customer", .num 0, "old", []⟩).output = "old" :=
  ⟨((generate_callback_dichotomy id
      (.obj [("message", .obj [("success", .bool true),
        ("data", .obj [("name", .str "Customer")])])])
      ⟨.str "Customer", .num 0, "old", []⟩).1 rfl rfl rfl
      (by simp [payloadField, payloadOf, getProp, lookupProp])).2,
    rfl,
    ((generate_callback_dichotomy id .null ⟨.str "Customer", .num 0, "old", []⟩).2
      (Or.inl rfl)).2⟩

/-- C9: for every response passed to the Export HTML callback of a request sent for the
name `name`: if the response or its returned path is absent or empty (falsy), the only
action is the error `__('Failed to export HTML')` and no window is opened; if the
returned path is a non-empty string, no error is notified, the success alert
`__('HTML exported: ')` followed by the path is shown, and exactly one window is opened,
at the URL computed from the name sent in the request, whatever the path. -/
theorem export_callback_outcome (tr : String → String) (p : Page) (name : String)
    (r : JSValue) (hname : p.doctype_name_control = .str name) (hne : name ≠ "") :
    (onExportHtmlClick tr p).log
        = p.log ++ [.call "doctype_explorer.explorer.export_to_html"
            (.obj [("doctype_name", .str name)]) true (.exportHtml (.str name))] ∧
    ((truthy r = false ∨ truthy (payloadOf r) = false) →
      (runCallback tr (.exportHtml (.str name)) r (onExportHtmlClick tr p)).log
        = (onExportHtmlClick tr p).log
          ++ [.msgprint (tr "Error") "red" (.str (tr "Failed to export HTML"))]) ∧
    (∀ path : String, path ≠ "" → getProp r "message" = some (.str path) →
      (runCallback tr (.exportHtml (.str name)) r (onExportHtmlClick tr p)).log
        = (onExportHtmlClick tr p).log
          ++ [.showAlert (tr "HTML exported: " ++ path) "green",
              .windowOpen ("/files/doctype_docs/" ++ stringReplace name ++ ".html")
                "_blank"]) := by
  refine ⟨?_, ?_, ?_⟩
  · rw [onExportHtmlClick_of_str tr p name hname hne]
    rfl
  · intro h
    simp only [runCallback]
    rw [exportHtmlCallback_falsy tr _ r _ h]
    rfl
  · intro path hpath hget
    have hp : payloadOf r = .str path := by simp [payloadOf, hget]
    have h2 : truthy (payloadOf r) = true := by simp [hp, truthy, hpath]
    have h1 : truthy r = true := by
      by_contra hc
      have := payloadOf_falsy_of_falsy r (by simpa using hc)
      rw [h2] at this
      exact absurd this (by decide)
    simp only [runCallback]
    rw [exportHtmlCallback_truthy tr name r _ h1 h2, hp]
    simp [Page.emit, jsToString, exportUrl]

/-- Witness of C9: the name `Sales Invoice` and a response carrying a path. -/
theorem export_callback_outcome_witness :
    (runCallback id (.exportHtml (.str "Sales Invoice"))
        (.obj [("message", .str "/files/doctype_docs/Sales_Invoice.html")])
        (onExportHtmlClick id ⟨.str "Sales Invoice", .num 0, "", []⟩)).log
      = (onExportHtmlClick id ⟨.str "Sales Invoice", .num 0, "", []⟩).log
        ++ [.showAlert (id "HTML exported: " ++ "/files/doctype_docs/Sales_Invoice.html")
              "green",
            .windowOpen ("/files/doctype_docs/" ++ stringReplace "Sales Invoice" ++ ".html")
              "_blank"] :=
  (export_callback_outcome id ⟨.str "Sales Invoice", .num 0, "", []⟩ "Sales Invoice"
    (.obj [("message", .str "/files/doctype_docs/Sales_Invoice.html")]) rfl
    (by decide)).2.2 "/files/doctype_docs/Sales_Invoice.html" (by decide) rfl

/-- C7: for every schema store, every root DocType and every level `L ≥ 1`, `explore`
returns a tree whenever the root is in the store, and in the tree it returns every node
at depth exactly `L` has no children, is flagged cut and records the depth `L`. -/
theorem explore_cuts_at_level (store : SchemaStore) (root : String) (maxLevel : Nat)
    (hlevel : 1 ≤ maxLevel) :
    (∀ fields, fetch store root = some fields →
      ∃ tree, explore store root maxLevel = .ok tree) ∧
    (∀ tree, explore store root maxLevel = .ok tree →
      ∀ n ∈ nodesAt maxLevel tree,
        n.children = [] ∧ n.flag = .cut ∧ n.depth = maxLevel) := by
  constructor
  · intro fields hfetch
    obtain ⟨tree, htree⟩ := exploreNode_total store maxLevel (store.length + 1) [] 0 root
      fields (by simp)
      (by
        intro x hx
        rw [List.mem_singleton] at hx
        subst hx
        exact fetch_mem_keys store _ _ hfetch)
      (by simp)
    exact ⟨tree, by simp [explore, hfetch, htree]⟩
  · intro tree h
    unfold explore at h
    split at h
    · exact absurd h (by simp)
    · rename_i fields hfetch
      split at h
      · rename_i t ht
        injection h with h
        subst h
        exact exploreNode_cut_at_limit store maxLevel _ maxLevel [] 0 root fields t hlevel
          (by omega) ht
      · exact absurd h (by simp)

/-- Witness of C7: the scenario of the specification, `explore("Invoice", 1)`: the tree
is Invoice with the single child Customer, a cut leaf at depth 1. -/
theorem explore_cuts_at_level_witness :
    explore invoiceStore "Invoice" 1
      = .ok (.mk "Invoice"
          [⟨"customer", .reference, some "Customer", "Customer", true, []⟩,
           ⟨"total", .plain, none, "Total", false, []⟩] 0 .expanded
          [leafNode "Customer" 1 .cut]) ∧
    nodesAt 1 (.mk "Invoice"
          [⟨"customer", .reference, some "Customer", "Customer", true, []⟩,
           ⟨"total", .plain, none, "Total", false, []⟩] 0 .expanded
          [leafNode "Customer" 1 .cut]) = [leafNode "Customer" 1 .cut] ∧
    ((leafNode "Customer" 1 .cut).children = [] ∧ (leafNode "Customer" 1 .cut).flag = .cut
      ∧ (leafNode "Customer" 1 .cut).depth = 1) :=
  ⟨rfl, rfl, (explore_cuts_at_level invoiceStore "Invoice" 1 (by decide)).2 _ rfl _
    (List.Mem.head _)⟩

end DoctypeExplorer
